import Mathlib

/-
Verification of `advanced-vector/vector.h`: a growable-array container
(`RawMemory<T>` raw storage + `Vector<T>` logic) with manual lifetime
management and exception-safe growth.

Shallow embedding: a vector state is the list of live element values
together with the capacity of the backing `RawMemory` block.  Moves are
value transfers, and in the `Vec` model a moved-from slot that stays live
retains its value, as for trivially-movable element types; for element
types with destructive moves (a moved-from object loses its value) the
in-place branch of Emplace diverges from this model, so that branch is
additionally embedded cell by cell over husk-able values
(`emplaceInPlaceDestructiveMove` below).  A potentially-throwing element
copy constructor is modelled by a predicate saying which element values
throw when copied, a successful copy producing an equal value.
-/

set_option autoImplicit false

namespace AdvancedVector

variable {α : Type}

/-- State of `Vector<T>` (vector.h lines 90-311): `elems` are the live
constructed values in slots `[0, size)` of the backing block, `cap` is
`data_.Capacity()`, the number of raw slots of the `RawMemory` member. -/
structure Vec (α : Type) where
  elems : List α
  cap : Nat
  deriving DecidableEq, Repr

/-- `Vector::Size` (line 146): the count of live elements. -/
def Vec.size (v : Vec α) : Nat := v.elems.length

/-- `Vector::Capacity` (line 150). -/
def Vec.Capacity (v : Vec α) : Nat := v.cap

/-- The class invariant of `Vector<T>`: the live region fits in the
backing block. -/
def Vec.WF (v : Vec α) : Prop := v.size ≤ v.cap

instance (v : Vec α) : Decidable v.WF := by
  unfold Vec.WF; infer_instance

/-- Slot-level view of the backing block: slots `[0, size)` hold live
constructed values, slots `[size, cap)` are uninitialized (`none`). -/
def Vec.toBuf (v : Vec α) : List (Option α) :=
  v.elems.map some ++ List.replicate (v.cap - v.size) none

/-- `Vector::Swap` (line 163): exchanges storage and size of the two
vectors. -/
def Vec.swapWith (a b : Vec α) : Vec α × Vec α := (b, a)

/-- `Vector(Vector&& other)` (lines 110-112): the new vector is default
constructed (no storage, size 0) and then swapped with `other`; returns
(the new vector, the moved-from `other`). -/
def Vec.moveConstruct (other : Vec α) : Vec α × Vec α :=
  Vec.swapWith ⟨[], 0⟩ other

/-- `Vector::Emplace` (lines 238-278), value-level result for the case
where no element constructor throws.  `position` is `pos - begin()`.
If `size == capacity` a new block of `size == 0 ? 1 : size * 2` slots is
populated: the new element is constructed at slot `position`, the first
`position` old elements are relocated to slots `[0, position)` and the
remaining `size - position` old elements to slots `[position+1, size+1)`.
Otherwise the last element is move-constructed into the one-past-end
slot, `move_backward` shifts `[position, size)` one slot right, slot
`position` is destroyed and the new element constructed there (when
`size == 0` the element is constructed directly at slot `position`,
which the precondition forces to be 0).

Moves are modelled here as value-preserving (a moved-from slot retains
its value), so the in-place branch coincides with the source only for
element types whose moved-from objects keep their value: the source
first husks the last element with the speculative move at line 264 and,
because `move_backward` at line 266 spans up to `end()` rather than
`end() - 1`, re-moves that husk; see `emplaceInPlaceDestructiveMove`
for a faithful cell-level embedding of this branch under destructive
moves. -/
def Vec.Emplace (v : Vec α) (position : Nat) (x : α) : Vec α :=
  if v.size = v.cap then
    let newCap := if v.size = 0 then 1 else v.size * 2
    ⟨v.elems.take position ++ [x] ++ v.elems.drop position, newCap⟩
  else if h0 : v.size = 0 then ⟨[x], v.cap⟩
  else
    let s1 := v.elems ++ [v.elems.getLast (List.length_pos.mp (Nat.pos_of_ne_zero h0))]
    let s2 := s1.take (position + 1) ++ (s1.drop position).dropLast
    ⟨s2.set position x, v.cap⟩

/-- `Vector::EmplaceBack` (lines 225-235): delegates to `Emplace(end())`
when full, otherwise constructs directly into the next free slot. -/
def Vec.EmplaceBack (v : Vec α) (x : α) : Vec α :=
  if v.size = v.cap then v.Emplace v.size x
  else ⟨v.elems ++ [x], v.cap⟩

/-- `Vector::PushBack` (lines 213-216): forwards to `EmplaceBack`. -/
def Vec.PushBack (v : Vec α) (x : α) : Vec α := v.EmplaceBack x

/-- `Vector::Insert` (lines 289-295): forwards to `Emplace`. -/
def Vec.Insert (v : Vec α) (position : Nat) (x : α) : Vec α :=
  v.Emplace position x

/-- `Vector::PopBack` (lines 218-223): destroys the last live element and
decrements the size when `size_ > 0`; otherwise does nothing. -/
def Vec.PopBack (v : Vec α) : Vec α :=
  if 0 < v.size then ⟨v.elems.dropLast, v.cap⟩ else v

/-- `Vector::Erase` (lines 280-287): `std::move` shifts `[position+1,
size)` one slot left by assignment (the last slot is not a destination,
so it keeps its value), `destroy_at(end() - 1)` ends the lifetime of the
last slot, and the size drops by one.  Returns the new state together
with the offset of the returned iterator `begin() + position`. -/
def Vec.Erase (v : Vec α) (position : Nat) : Vec α × Nat :=
  let afterMove := v.elems.take position ++ v.elems.drop (position + 1) ++
    v.elems.drop (v.elems.length - 1)
  (⟨afterMove.take (v.elems.length - 1), v.cap⟩, position)

/-- `Vector::ResizeToSmallerRhs` (lines 301-310): `copy_n` assigns the
first `min(size, rhs.size)` source elements over the live region; then
either the extra owned tail `[rhs.size, size)` is destroyed (shrinking)
or the extra incoming tail is copy-constructed into the uninitialized
slots `[size, rhs.size)` (growing).  Capacity is untouched. -/
def Vec.ResizeToSmallerRhs (v rhs : Vec α) : Vec α :=
  if rhs.size < v.size then
    ⟨(rhs.elems.take (min v.size rhs.size) ++ v.elems.drop (min v.size rhs.size)).take rhs.size,
      v.cap⟩
  else
    ⟨rhs.elems.take (min v.size rhs.size) ++ v.elems.drop (min v.size rhs.size)
      ++ rhs.elems.drop v.size, v.cap⟩

/-- Body of `Vector::operator=(const Vector&)` (lines 194-204) on
distinct objects: if the source does not fit in the current block, a
full copy of `rhs` is built (its block has exactly `rhs.size` slots, by
the copy constructor at lines 102-108) and swapped in; otherwise the
existing storage is reused via `ResizeToSmallerRhs`. -/
def Vec.copyAssignBody (v rhs : Vec α) : Vec α :=
  if v.cap < rhs.size then ⟨rhs.elems, rhs.size⟩
  else v.ResizeToSmallerRhs rhs

/-- `Vector::operator=(const Vector&)` (lines 194-204) including the
`this != &rhs` self-assignment guard, modelled by the flag `isSelf`
(true exactly when the two references alias the same object). -/
def Vec.assignCopy (v rhs : Vec α) (isSelf : Bool) : Vec α :=
  if isSelf then v else v.copyAssignBody rhs

/-- `Vector::operator=(Vector&&)` (lines 206-211): `Swap(rhs)` behind a
`this != &rhs` guard; returns (the assigned-to vector, the moved-from
right-hand side). -/
def Vec.assignMove (v rhs : Vec α) (isSelf : Bool) : Vec α × Vec α :=
  if isSelf then (v, rhs) else (rhs, v)

/-- `std::uninitialized_copy_n` with an element copy constructor that may
throw: `throws a` says copying the value `a` throws.  On success the
copies (equal values) are all constructed; on a throw the call destroys
the elements it has already constructed and the exception propagates
(`none`). -/
def uninitializedCopyN (throws : α → Bool) : List α → Option (List α)
  | [] => some []
  | a :: rest =>
    if throws a then none
    else
      match uninitializedCopyN throws rest with
      | some copied => some (a :: copied)
      | none => none

/-- `Vector::Reserve` (lines 168-181) in the copy-relocation branch
(selected by the `constexpr` test when `T` is not nothrow-move
constructible but is copy constructible), with a potentially throwing
element copy constructor.  `new_capacity <= Capacity()` is a no-op.
Otherwise a fresh block is allocated and `uninitialized_copy_n` copies
the live elements into it; on success the old elements are destroyed and
the new block swapped in.  If a copy throws, `uninitialized_copy_n`
destroys its partial work, the fresh `RawMemory` is deallocated by its
destructor, and `data_`/`size_` were never written: `.error` carries the
vector state observed after the exception propagates. -/
def Vec.ReserveCopyFallible (throws : α → Bool) (v : Vec α)
    (newCapacity : Nat) : Except (Vec α) (Vec α) :=
  if newCapacity ≤ v.cap then .ok v
  else
    match uninitializedCopyN throws v.elems with
    | some copied => .ok ⟨copied, newCapacity⟩
    | none => .error v

/-- `std::uninitialized_copy_n` writing into cells `[start, start + n)`
of a raw block, tracked cell by cell (`none` = uninitialized cell,
`some a` = constructed object holding `a`).  On a throwing copy the call
destroys exactly the cells it constructed itself, so the block reverts
to its entry state, and the Boolean reports the exception. -/
def uninitCopyCells (throws : α → Bool) (block : List (Option α))
    (start : Nat) : List α → List (Option α) × Bool
  | [] => (block, true)
  | a :: rest =>
    if throws a then (block, false)
    else
      let res := uninitCopyCells throws (block.set start (some a)) (start + 1) rest
      if res.2 then res else (block, false)

/-- The reallocating branch of `Vector::Emplace` (lines 242-261, entered
when `size == capacity`), instrumented at the level of the new block's
cells, for the copy-relocation case.  A block of `size == 0 ? 1 : size*2`
cells is allocated, the new element is constructed at cell `position`,
then the first `position` old elements are copied to cells
`[0, position)` and the remaining ones to cells `[position+1, ...)`.  On
success the old elements are destroyed and the block adopted (`.ok`).
If a copy throws, the `catch` clause runs
`std::destroy_n(new_data.GetAddress() + position, 1)` — destroying only
cell `position` — and rethrows; the fresh `RawMemory` is then
deallocated without running destructors.  `.error` carries (the cells of
the new block still constructed at the moment it is deallocated, the
vector state after the exception). -/
def Vec.EmplaceReallocTrace (throws : α → Bool) (v : Vec α)
    (position : Nat) (x : α) : Except (List (Option α) × Vec α) (Vec α) :=
  let newCap := if v.size = 0 then 1 else v.size * 2
  let b1 := (List.replicate newCap (none : Option α)).set position (some x)
  let resHead := uninitCopyCells throws b1 0 (v.elems.take position)
  if resHead.2 then
    let resTail := uninitCopyCells throws resHead.1 (position + 1)
      (v.elems.drop position)
    if resTail.2 then
      .ok ⟨v.elems.take position ++ [x] ++ v.elems.drop position, newCap⟩
    else
      .error (resTail.1.set position none, v)
  else
    .error (resHead.1.set position none, v)

/-- One mutation of the sequence alphabet of §8 of the spec.  `insert`
and `erase` carry the intended offset from `begin()`. -/
inductive Op (α : Type) where
  | push (x : α)
  | pop
  | insert (position : Nat) (x : α)
  | erase (position : Nat)

/-- Apply one operation.  `Emplace` and `Erase` assert their position is
in range (lines 240 and 281); a violating call is a precondition
violation in the source, modelled here as leaving the state unchanged so
that arbitrary sequences stay total. -/
def Vec.step (v : Vec α) : Op α → Vec α
  | .push x => v.PushBack x
  | .pop => v.PopBack
  | .insert position x =>
      if position ≤ v.size then v.Insert position x else v
  | .erase position =>
      if position < v.size then (v.Erase position).1 else v

/-- Run a sequence of operations left to right. -/
def Vec.run (v : Vec α) (ops : List (Op α)) : Vec α :=
  ops.foldl Vec.step v

/-!
Cell-level model of the in-place (non-reallocating) branch of
`Vector::Emplace` (vector.h lines 262-275) for a destructive-move
element type: each live cell is `some a` (an object holding the value
`a`) or `none` (a live but moved-from husk whose value is lost, as for
strings, owning pointers, nested containers).  A move reads the source
cell's content into the destination and husks the source.
-/

/-- One move-assignment `*(b + dst) = std::move(*(b + src))`: the
destination cell's old value is destroyed and replaced by the source
cell's content, the source becomes a husk. -/
def moveAssignCell (b : List (Option α)) (src dst : Nat) : List (Option α) :=
  (b.set dst (b.getD src none)).set src none

/-- `std::move_backward(begin() + position, begin() + position + n,
begin() + position + n + 1)` (vector.h line 266, where `n = size -
position`): `n` move-assignments processed back to front, each shifting
one cell right by one and husking it. -/
def moveBackwardHusk (b : List (Option α)) (position : Nat) : Nat → List (Option α)
  | 0 => b
  | n + 1 => moveBackwardHusk (moveAssignCell b (position + n) (position + n + 1)) position n

/-- The in-place branch of `Vector::Emplace` (vector.h lines 262-275,
entered when `size < capacity`) over husk-able cells: if the vector is
empty the new element is constructed directly; otherwise the last
element is move-constructed into the one-past-end cell (line 264,
husking its source), `move_backward` shifts the `size - position` cells
`[position, size)` one cell right (line 266), cell `position` is
destroyed (line 272) and the new element constructed there (line 274). -/
def emplaceInPlaceDestructiveMove (l : List (Option α)) (position : Nat)
    (x : α) : List (Option α) :=
  if l.length = 0 then [some x]
  else
    let b1 := l.set (l.length - 1) none ++ [l.getD (l.length - 1) none]
    let b2 := moveBackwardHusk b1 position (l.length - position)
    b2.set position (some x)

/-- The non-growing branch of `Vector::EmplaceBack` (vector.h line 230,
entered when `size < capacity`) over husk-able cells: the new element is
constructed directly into the next free slot and no other cell is
touched. -/
def pushBackDirectSlot (l : List (Option α)) (x : α) : List (Option α) :=
  l ++ [some x]

/-! ### Helper lemmas -/

/-- The in-place insertion dance of `Emplace` (speculative construction of
the last element one past the end, backward shift, overwrite at
`position`) computes the list insertion at `position`, for any value `c`
sitting in the speculative slot. -/
theorem shift_insert_set (u : List α) (c x : α) (pos : Nat) (hpos : pos ≤ u.length) :
    ((u ++ [c]).take (pos + 1) ++ ((u ++ [c]).drop pos).dropLast).set pos x
      = u.take pos ++ [x] ++ u.drop pos := by
  induction u generalizing pos with
  | nil =>
    have : pos = 0 := Nat.le_zero.mp hpos
    subst this
    rfl
  | cons a t ih =>
    cases pos with
    | zero =>
      show ((a :: ((t ++ [c]).take 0)) ++ ((a :: t ++ [c]).drop 0).dropLast).set 0 x
        = [] ++ [x] ++ (a :: t)
      simp only [List.take_zero, List.drop_zero, List.cons_append,
        List.nil_append]
      rw [show a :: (t ++ [c]) = (a :: t) ++ [c] from rfl, List.dropLast_concat]
      rfl
    | succ p =>
      have hp : p ≤ t.length := Nat.le_of_succ_le_succ hpos
      show (a :: (((t ++ [c]).take (p + 1)) ++ ((t ++ [c]).drop p).dropLast)).set (p + 1) x
        = (a :: t.take p) ++ [x] ++ t.drop p
      show a :: ((((t ++ [c]).take (p + 1)) ++ ((t ++ [c]).drop p).dropLast).set p x)
        = (a :: t.take p) ++ [x] ++ t.drop p
      rw [ih p hp]
      rfl

theorem Emplace_elems (v : Vec α) (position : Nat) (x : α)
    (hpos : position ≤ v.size) :
    (v.Emplace position x).elems
      = v.elems.take position ++ [x] ++ v.elems.drop position := by
  unfold Vec.Emplace
  split
  · rfl
  · split
    · rename_i h0
      have he : v.elems = [] := List.length_eq_zero.mp h0
      simp [he]
    · exact shift_insert_set v.elems _ x position hpos

theorem Emplace_cap (v : Vec α) (position : Nat) (x : α) :
    (v.Emplace position x).cap
      = if v.size = v.cap then (if v.size = 0 then 1 else v.size * 2)
        else v.cap := by
  unfold Vec.Emplace
  split
  · rfl
  · split <;> rfl

theorem Emplace_size (v : Vec α) (position : Nat) (x : α)
    (hpos : position ≤ v.size) :
    (v.Emplace position x).size = v.size + 1 := by
  have h := Emplace_elems v position x hpos
  simp only [Vec.size] at hpos ⊢
  rw [h]
  simp only [List.length_append, List.length_take, List.length_drop,
    List.length_cons, List.length_nil]
  omega

theorem PushBack_elems (v : Vec α) (x : α) :
    (v.PushBack x).elems = v.elems ++ [x] := by
  unfold Vec.PushBack Vec.EmplaceBack
  split
  · rw [Emplace_elems v v.size x (Nat.le_refl _)]
    simp only [Vec.size, List.take_length, List.drop_length, List.append_nil]
  · rfl

theorem PushBack_cap (v : Vec α) (x : α) :
    (v.PushBack x).cap
      = if v.size = v.cap then (if v.size = 0 then 1 else v.size * 2)
        else v.cap := by
  unfold Vec.PushBack Vec.EmplaceBack
  split
  · rename_i h
    rw [Emplace_cap]
    simp [h]
  · rename_i h
    simp [h]

theorem PushBack_size (v : Vec α) (x : α) :
    (v.PushBack x).size = v.size + 1 := by
  unfold Vec.size
  rw [PushBack_elems]
  simp

theorem WF_PushBack (v : Vec α) (x : α) (h : v.WF) : (v.PushBack x).WF := by
  have hs := PushBack_size v x
  have hc := PushBack_cap v x
  unfold Vec.WF at h ⊢
  rw [hs, hc]
  split
  · split <;> omega
  · omega

theorem WF_Emplace (v : Vec α) (position : Nat) (x : α) (h : v.WF)
    (hpos : position ≤ v.size) : (v.Emplace position x).WF := by
  have hs := Emplace_size v position x hpos
  have hc := Emplace_cap v position x
  unfold Vec.WF at h ⊢
  rw [hs, hc]
  split
  · split <;> omega
  · omega

theorem WF_PopBack (v : Vec α) (h : v.WF) : v.PopBack.WF := by
  unfold Vec.PopBack
  split
  · unfold Vec.WF Vec.size at h ⊢
    simp only [List.length_dropLast]
    omega
  · exact h

theorem WF_Erase (v : Vec α) (position : Nat) (h : v.WF) :
    ((v.Erase position).1).WF := by
  unfold Vec.WF Vec.size at h
  show ((v.elems.take position ++ v.elems.drop (position + 1) ++
      v.elems.drop (v.elems.length - 1)).take (v.elems.length - 1)).length ≤ v.cap
  simp only [List.length_take]
  omega

theorem WF_step (v : Vec α) (op : Op α) (h : v.WF) : (v.step op).WF := by
  cases op with
  | push x => exact WF_PushBack v x h
  | pop => exact WF_PopBack v h
  | insert position x =>
    show (if position ≤ v.size then v.Insert position x else v).WF
    split
    · rename_i hpos; exact WF_Emplace v position x h hpos
    · exact h
  | erase position =>
    show (if position < v.size then (v.Erase position).1 else v).WF
    split
    · exact WF_Erase v position h
    · exact h

theorem WF_run (ops : List (Op α)) : ∀ v : Vec α, v.WF → (v.run ops).WF := by
  induction ops with
  | nil => intro v h; exact h
  | cons op rest ih =>
    intro v h
    exact ih (v.step op) (WF_step v op h)

theorem toBuf_live (v : Vec α) (i : Nat) (hi : i < v.size) :
    ∃ a, v.toBuf[i]? = some (some a) := by
  refine ⟨v.elems.get ⟨i, hi⟩, ?_⟩
  unfold Vec.toBuf
  rw [List.getElem?_append_left (by simp only [List.length_map]; exact hi)]
  rw [List.getElem?_map, List.getElem?_eq_getElem hi]
  rfl

theorem toBuf_uninit (v : Vec α) (i : Nat) (h1 : v.size ≤ i) (h2 : i < v.cap) :
    v.toBuf[i]? = some none := by
  have h1' : v.elems.length ≤ i := h1
  have hcond : i - v.elems.length < v.cap - v.size := by
    unfold Vec.size
    omega
  unfold Vec.toBuf
  rw [List.getElem?_append_right (by simp only [List.length_map]; exact h1')]
  simp only [List.length_map, List.getElem?_replicate]
  rw [if_pos hcond]

/-! ### Claim theorems -/

/-- C1: for every vector and every newCapacity, if an element's copy
constructor throws during `Reserve(newCapacity)` (the element type being
one for which copy-based relocation is selected), then after the
exception propagates the vector's size, capacity, and element values are
exactly as they were before the call (strong exception guarantee). -/
theorem reserve_copy_throw_strong_guarantee {β : Type} (throws : β → Bool)
    (v : Vec β) (newCapacity : Nat) (w : Vec β)
    (h : v.ReserveCopyFallible throws newCapacity = .error w) :
    w.size = v.size ∧ w.Capacity = v.Capacity ∧ w.elems = v.elems := by
  unfold Vec.ReserveCopyFallible at h
  split at h
  · simp at h
  · cases hcopy : uninitializedCopyN throws v.elems with
    | some copied => rw [hcopy] at h; simp at h
    | none =>
      rw [hcopy] at h
      injection h with h2
      subst h2
      exact ⟨rfl, rfl, rfl⟩

/-- C1 witness: copying the element 2 throws while `Reserve 3` relocates
the full vector `[1, 2]` of capacity 2; the error state equals the
original. -/
theorem reserve_copy_throw_strong_guarantee_witness :
    (Vec.mk [1, 2] 2 : Vec Nat).size = (Vec.mk [1, 2] 2 : Vec Nat).size
    ∧ (Vec.mk [1, 2] 2 : Vec Nat).Capacity = (Vec.mk [1, 2] 2 : Vec Nat).Capacity
    ∧ (Vec.mk [1, 2] 2 : Vec Nat).elems = (Vec.mk [1, 2] 2 : Vec Nat).elems :=
  reserve_copy_throw_strong_guarantee (fun a => a == 2) (Vec.mk [1, 2] 2) 3
    (Vec.mk [1, 2] 2) (by rfl)

/-- C2 (claim refuted, code bug): in the reallocating branch of Emplace,
insert 7 at position 1 of the full vector `[5, 9]` with the copy of the
suffix element 9 throwing.  The catch clause destroys only the new
element at cell 1 of the new block, so the already-relocated copy of 5
in cell 0 is still constructed (`some 5`) when the block is deallocated:
an object leak, contradicting the claim that every already-relocated
element before `position` is destroyed before the rethrow (which would
give an all-`none` block).  The original vector is preserved unchanged,
as the second component of the error shows. -/
theorem emplace_realloc_suffix_throw_leaks_relocated_value :
    (Vec.EmplaceReallocTrace (fun a => a == 9) (Vec.mk [5, 9] 2) 1 7
        = Except.error ([some 5, none, none, none], Vec.mk [5, 9] 2))
    ∧ ([some 5, none, none, none] : List (Option Nat)).any (fun c => c.isSome)
        = true :=
  ⟨rfl, rfl⟩

/-- C3 (claim refuted on the in-place path, code bug): for a
destructive-move element type on a non-full vector, Insert at the end
position does not produce the PushBack state.  Inserting 30 at position
2 of `[10, 20]` (size 2, capacity 3): the speculative move-construct
(line 264) husks cell 1 and puts 20 in the one-past-end cell 2, the
backward shift over the empty range `[position, size)` does nothing,
and `destroy_at(begin() + position)` (line 272) destroys that only
remaining copy of 20 before 30 is constructed in cell 2 — yielding
`[10, husk, 30]` — while PushBack constructs 30 directly into the free
cell and preserves 20, yielding `[10, 20, 30]`, as the claim and §8 of
the spec require of both. -/
theorem insert_end_husks_last_element_on_in_place_path :
    emplaceInPlaceDestructiveMove [some 10, some 20] 2 (30 : Nat)
        = [some 10, none, some 30]
    ∧ pushBackDirectSlot [some 10, some 20] (30 : Nat)
        = [some 10, some 20, some 30]
    ∧ emplaceInPlaceDestructiveMove [some 10, some 20] 2 (30 : Nat)
        ≠ pushBackDirectSlot [some 10, some 20] (30 : Nat) :=
  ⟨rfl, rfl, by decide⟩

/-- C5: starting from an empty vector, pushing back 1,2,3,4,5 in order
yields final contents `[1,2,3,4,5]` with size 5, the capacity after each
push following the doubling sequence 1, 2, 4, 4, 8. -/
theorem pushBack_one_to_five_contents_and_capacities :
    ((Vec.mk [] 0 : Vec Nat).PushBack 1 = Vec.mk [1] 1)
    ∧ ((Vec.mk [1] 1 : Vec Nat).PushBack 2 = Vec.mk [1, 2] 2)
    ∧ ((Vec.mk [1, 2] 2 : Vec Nat).PushBack 3 = Vec.mk [1, 2, 3] 4)
    ∧ ((Vec.mk [1, 2, 3] 4 : Vec Nat).PushBack 4 = Vec.mk [1, 2, 3, 4] 4)
    ∧ ((Vec.mk [1, 2, 3, 4] 4 : Vec Nat).PushBack 5 = Vec.mk [1, 2, 3, 4, 5] 8) :=
  ⟨rfl, rfl, rfl, rfl, rfl⟩

/-- C7: move-constructing B from A yields B holding A's original state
(same size, capacity and elements) and leaves A empty, with size 0 and
no storage (capacity 0). -/
theorem move_construct_transfers_and_empties_source {β : Type} (a : Vec β) :
    (Vec.moveConstruct a).1 = a
    ∧ (Vec.moveConstruct a).2.size = 0
    ∧ (Vec.moveConstruct a).2.Capacity = 0 :=
  ⟨rfl, rfl, rfl⟩

/-- C10: self-assignment is a no-op: both copy-assigning and
move-assigning a vector to itself (the `this != &rhs` guards) leave its
state unchanged. -/
theorem self_assignment_is_noop {β : Type} (v : Vec β) :
    v.assignCopy v true = v ∧ (v.assignMove v true).1 = v :=
  ⟨rfl, rfl⟩

/-- C4: from any valid state, every sequence of PushBack / PopBack /
Insert / Erase operations keeps `0 ≤ Size() ≤ Capacity()` after every
operation (every prefix of the sequence), with slots `[0, size)` holding
live constructed values and slots `[size, capacity)` uninitialized. -/
theorem op_sequences_preserve_size_le_capacity_and_slot_liveness
    {β : Type} (v : Vec β) (ops : List (Op β)) (k : Nat) (h : v.WF) :
    0 ≤ (v.run (ops.take k)).size
    ∧ (v.run (ops.take k)).size ≤ (v.run (ops.take k)).Capacity
    ∧ (∀ i, i < (v.run (ops.take k)).size →
        ∃ a, (v.run (ops.take k)).toBuf[i]? = some (some a))
    ∧ (∀ i, (v.run (ops.take k)).size ≤ i → i < (v.run (ops.take k)).Capacity →
        (v.run (ops.take k)).toBuf[i]? = some none) := by
  have hw : (v.run (ops.take k)).WF := WF_run (ops.take k) v h
  exact ⟨Nat.zero_le _, hw, fun i hi => toBuf_live _ i hi,
    fun i hi1 hi2 => toBuf_uninit _ i hi1 hi2⟩

/-- C4 witness: a concrete mixed sequence of five operations from the
empty vector. -/
theorem op_sequences_preserve_size_le_capacity_and_slot_liveness_witness :
    0 ≤ ((Vec.mk ([] : List Nat) 0).run
        (([Op.push 1, Op.push 2, Op.insert 0 5, Op.erase 1, Op.pop]).take 5)).size
    ∧ ((Vec.mk ([] : List Nat) 0).run
        (([Op.push 1, Op.push 2, Op.insert 0 5, Op.erase 1, Op.pop]).take 5)).size
      ≤ ((Vec.mk ([] : List Nat) 0).run
        (([Op.push 1, Op.push 2, Op.insert 0 5, Op.erase 1, Op.pop]).take 5)).Capacity
    ∧ (∀ i, i < ((Vec.mk ([] : List Nat) 0).run
          (([Op.push 1, Op.push 2, Op.insert 0 5, Op.erase 1, Op.pop]).take 5)).size →
        ∃ a, ((Vec.mk ([] : List Nat) 0).run
          (([Op.push 1, Op.push 2, Op.insert 0 5, Op.erase 1, Op.pop]).take 5)).toBuf[i]?
            = some (some a))
    ∧ (∀ i, ((Vec.mk ([] : List Nat) 0).run
          (([Op.push 1, Op.push 2, Op.insert 0 5, Op.erase 1, Op.pop]).take 5)).size ≤ i →
        i < ((Vec.mk ([] : List Nat) 0).run
          (([Op.push 1, Op.push 2, Op.insert 0 5, Op.erase 1, Op.pop]).take 5)).Capacity →
        ((Vec.mk ([] : List Nat) 0).run
          (([Op.push 1, Op.push 2, Op.insert 0 5, Op.erase 1, Op.pop]).take 5)).toBuf[i]?
            = some none) :=
  op_sequences_preserve_size_le_capacity_and_slot_liveness (Vec.mk [] 0)
    [Op.push 1, Op.push 2, Op.insert 0 5, Op.erase 1, Op.pop] 5 (by decide)

/-- C6: for distinct vectors A and B with `B.Size() <= A.Capacity()`,
copy assignment reuses A's storage (capacity unchanged), copies the
overlapping head, fixes up the tail, and ends with A holding B's
elements and size. -/
theorem copy_assign_within_capacity_reuses_storage {β : Type} (a b : Vec β)
    (h : b.size ≤ a.Capacity) :
    (a.copyAssignBody b).Capacity = a.Capacity
    ∧ (a.copyAssignBody b).size = b.size
    ∧ (a.copyAssignBody b).elems = b.elems := by
  have hbody : a.copyAssignBody b = a.ResizeToSmallerRhs b := by
    unfold Vec.copyAssignBody
    rw [if_neg (by unfold Vec.Capacity at h; omega)]
  have helems : (a.ResizeToSmallerRhs b).elems = b.elems := by
    unfold Vec.ResizeToSmallerRhs
    split
    · rename_i hlt
      show (b.elems.take (min a.size b.size) ++ a.elems.drop (min a.size b.size)).take b.size
        = b.elems
      have hk : min a.size b.size = b.size := by omega
      rw [hk]
      have ht : b.elems.take b.size = b.elems := by
        show b.elems.take b.elems.length = b.elems
        exact List.take_length b.elems
      rw [ht]
      exact List.take_left' rfl
    · rename_i hge
      show b.elems.take (min a.size b.size) ++ a.elems.drop (min a.size b.size)
          ++ b.elems.drop a.size = b.elems
      have hk : min a.size b.size = a.size := by omega
      rw [hk]
      have hd : a.elems.drop a.size = [] := by
        show a.elems.drop a.elems.length = []
        exact List.drop_length a.elems
      rw [hd, List.append_nil]
      exact List.take_append_drop _ _
  refine ⟨?_, ?_, ?_⟩
  · rw [hbody]
    unfold Vec.ResizeToSmallerRhs
    split <;> rfl
  · rw [hbody]
    show (a.ResizeToSmallerRhs b).elems.length = b.elems.length
    rw [helems]
  · rw [hbody, helems]

/-- C6 witness: copy-assigning `[7]` into `[1,2,3]` of capacity 3 keeps
capacity 3 and ends with elements `[7]` and size 1. -/
theorem copy_assign_within_capacity_reuses_storage_witness :
    ((Vec.mk [1, 2, 3] 3 : Vec Nat).copyAssignBody (Vec.mk [7] 1)).Capacity
        = (Vec.mk [1, 2, 3] 3 : Vec Nat).Capacity
    ∧ ((Vec.mk [1, 2, 3] 3 : Vec Nat).copyAssignBody (Vec.mk [7] 1)).size
        = (Vec.mk [7] 1 : Vec Nat).size
    ∧ ((Vec.mk [1, 2, 3] 3 : Vec Nat).copyAssignBody (Vec.mk [7] 1)).elems
        = (Vec.mk [7] 1 : Vec Nat).elems :=
  copy_assign_within_capacity_reuses_storage (Vec.mk [1, 2, 3] 3) (Vec.mk [7] 1)
    (by decide)

/-- C8: for every position referencing a live element
(`position < size`), Erase shifts `[position+1, size)` one slot left by
assignment, destroys the vacated last slot, decrements the size, and
returns the offset `position`, whose slot now holds the old element from
`position + 1`. -/
theorem erase_shifts_left_and_decrements_size {β : Type} (v : Vec β)
    (position : Nat) (h : position < v.size) :
    ((v.Erase position).1).elems
        = v.elems.take position ++ v.elems.drop (position + 1)
    ∧ ((v.Erase position).1).size = v.size - 1
    ∧ ((v.Erase position).1).Capacity = v.Capacity
    ∧ (v.Erase position).2 = position
    ∧ ∀ a, v.elems[position + 1]? = some a →
        ((v.Erase position).1).elems[position]? = some a := by
  have h' : position < v.elems.length := h
  have hlen : (v.elems.take position ++ v.elems.drop (position + 1)).length
      = v.elems.length - 1 := by
    simp only [List.length_append, List.length_take, List.length_drop]
    omega
  have hmain : ((v.Erase position).1).elems
      = v.elems.take position ++ v.elems.drop (position + 1) := by
    show (v.elems.take position ++ v.elems.drop (position + 1) ++
        v.elems.drop (v.elems.length - 1)).take (v.elems.length - 1) = _
    exact List.take_left' hlen
  refine ⟨hmain, ?_, rfl, rfl, ?_⟩
  · show ((v.Erase position).1).elems.length = v.elems.length - 1
    rw [hmain, hlen]
  · intro a ha
    rw [hmain]
    rw [List.getElem?_append_right (by simp only [List.length_take]; omega)]
    have hl : (v.elems.take position).length = position := by
      simp only [List.length_take]
      omega
    rw [hl, Nat.sub_self, List.getElem?_drop]
    simpa using ha

/-- C8 witness: erasing position 1 of `[1,2,3,4]` yields `[1,3,4]` with
size 3, the returned offset 1 now holding the old element 3. -/
theorem erase_shifts_left_and_decrements_size_witness :
    ((Vec.mk [1, 2, 3, 4] 4 : Vec Nat).Erase 1).1.elems = [1, 3, 4]
    ∧ ((Vec.mk [1, 2, 3, 4] 4 : Vec Nat).Erase 1).1.size = 3
    ∧ ((Vec.mk [1, 2, 3, 4] 4 : Vec Nat).Erase 1).1.Capacity = 4
    ∧ ((Vec.mk [1, 2, 3, 4] 4 : Vec Nat).Erase 1).2 = 1
    ∧ ∀ a, ([1, 2, 3, 4] : List Nat)[2]? = some a →
        ((Vec.mk [1, 2, 3, 4] 4 : Vec Nat).Erase 1).1.elems[1]? = some a :=
  erase_shifts_left_and_decrements_size (Vec.mk [1, 2, 3, 4] 4) 1 (by decide)

/-- C9: PopBack on a non-empty vector destroys the last live element and
decrements the size by one; on an empty vector it is a safe no-op (state
unchanged), never an error. -/
theorem popBack_destroys_last_and_noop_on_empty {β : Type} (v : Vec β) :
    (0 < v.size → v.PopBack = Vec.mk v.elems.dropLast v.cap
      ∧ v.PopBack.size = v.size - 1 ∧ v.PopBack.Capacity = v.Capacity)
    ∧ (v.size = 0 → v.PopBack = v) := by
  constructor
  · intro hpos
    have hb : v.PopBack = Vec.mk v.elems.dropLast v.cap := by
      unfold Vec.PopBack
      rw [if_pos hpos]
    refine ⟨hb, ?_, by rw [hb]; rfl⟩
    rw [hb]
    show v.elems.dropLast.length = v.elems.length - 1
    exact List.length_dropLast v.elems
  · intro h0
    unfold Vec.PopBack
    rw [if_neg (by omega)]

/-- C9 witness: PopBack on `[1, 2]` gives `[1]` of size 1, PopBack on the
empty vector leaves it unchanged. -/
theorem popBack_destroys_last_and_noop_on_empty_witness :
    (0 < (Vec.mk [1, 2] 2 : Vec Nat).size
      ∧ ((Vec.mk [1, 2] 2 : Vec Nat).PopBack = Vec.mk [1] 2
        ∧ (Vec.mk [1, 2] 2 : Vec Nat).PopBack.size = 1
        ∧ (Vec.mk [1, 2] 2 : Vec Nat).PopBack.Capacity = 2))
    ∧ ((Vec.mk ([] : List Nat) 0).size = 0
      ∧ (Vec.mk ([] : List Nat) 0).PopBack = Vec.mk [] 0) :=
  ⟨⟨by decide, (popBack_destroys_last_and_noop_on_empty (Vec.mk [1, 2] 2)).1 (by decide)⟩,
    ⟨by decide, (popBack_destroys_last_and_noop_on_empty (Vec.mk [] 0)).2 (by decide)⟩⟩

end AdvancedVector
